import Mathlib

/-!
Verification of the exoplanet KOI classification pipeline.

This file gives a shallow embedding of the numeric core of the repository:

* `backend/app.py`: payload validation (`prepare_payload`), the numerically
  stable `sigmoid`, inference (`predict_probability`,
  `build_lightweight_prediction`), batch aggregation (`classify_batch`),
  batch file decoding (`load_batch_from_file`), and the artifact loading of
  the per-feature standard deviations (`STDS`, modelled by `loadStds`).
* `api/train_lightweight_model.py`: the feature schema (`FEATURE_KEYS`),
  `_median`, the preprocessing standard deviations of `_parse_dataset`
  (modelled by `featureStd`), and the batch gradient descent trainer
  `_train_logistic_regression`.

Machine floats are modelled by exact numbers: rationals where the code only
moves values around or compares them, reals where the code calls `math.exp`
or `math.sqrt`.  Python dictionaries are modelled by association lists keyed
by strings, and exceptions by `Except String`.
-/

namespace Exoplanets

/-! ### Feature schema

`FEATURE_KEYS` from `api/train_lightweight_model.py` (the backend reads the
same list back from the serialized model artifact). -/

def FEATURE_KEYS : List String :=
  ["koi_period", "koi_period_err1", "koi_period_err2",
   "koi_time0bk", "koi_time0bk_err1", "koi_time0bk_err2",
   "koi_impact", "koi_impact_err1", "koi_impact_err2",
   "koi_duration", "koi_duration_err1", "koi_duration_err2",
   "koi_depth", "koi_depth_err1", "koi_depth_err2",
   "koi_prad", "koi_prad_err1", "koi_prad_err2",
   "koi_teq", "koi_insol", "koi_insol_err1", "koi_insol_err2",
   "koi_model_snr", "koi_tce_plnt_num",
   "koi_steff", "koi_steff_err1", "koi_steff_err2",
   "koi_slogg", "koi_slogg_err1", "koi_slogg_err2",
   "koi_srad_err1", "koi_srad_err2", "ra"]

/-! ### Median (`_median` in `api/train_lightweight_model.py`)

Python `sorted` is an ascending stable sort, embedded by `List.insertionSort`;
integer division `//` is `Nat` division. -/

def _median (values : List ℚ) : ℚ :=
  if values.isEmpty then 0
  else
    let sorted := values.insertionSort (fun a b => a ≤ b)
    let mid := sorted.length / 2
    if sorted.length % 2 = 0 then (sorted.getD (mid - 1) 0 + sorted.getD mid 0) / 2
    else sorted.getD mid 0

/-! ### Sigmoid (`sigmoid` in `backend/app.py`, `_sigmoid` in
`api/train_lightweight_model.py`; both files contain the same code) -/

noncomputable def sigmoid (value : ℝ) : ℝ :=
  if value ≥ 0 then 1 / (1 + Real.exp (-value))
  else Real.exp value / (1 + Real.exp value)

/-! ### Payload validation (`prepare_payload` in `backend/app.py`)

`PVal` classifies a JSON payload value by the outcome of the Python
conversion `float(value)` followed by `math.isfinite`:
`fin q` converts to the finite value `q`; `nonfin` converts but is not
finite (for example the string "inf" or "nan"); `nonnum` raises
`ValueError` or `TypeError`. -/

inductive PVal where
  | fin (q : ℚ)
  | nonfin
  | nonnum
  deriving DecidableEq

def missingMessage (missing : List String) : String :=
  "Missing features: " ++ String.intercalate ", " missing

def numericMessage : String := "All feature values must be numeric."

def finiteMessage : String := "Feature values must be finite numbers."

/-- The `for key in FEATURE_KEYS` conversion loop of `prepare_payload`,
raising at the first offending key.  The `none` branch is unreachable when
the caller has already checked that no key is missing. -/
def convertFeatures (payload : List (String × PVal)) :
    List String → Except String (List (String × ℚ))
  | [] => Except.ok []
  | key :: keys =>
    match payload.lookup key with
    | some (PVal.fin q) =>
      match convertFeatures payload keys with
      | Except.ok rest => Except.ok ((key, q) :: rest)
      | Except.error e => Except.error e
    | some PVal.nonfin => Except.error finiteMessage
    | some PVal.nonnum => Except.error numericMessage
    | none => Except.error numericMessage

/-- `prepare_payload` from `backend/app.py`, with the module-level
`FEATURE_KEYS` passed as the `featureKeys` argument. -/
def prepare_payload (featureKeys : List String) (payload : List (String × PVal)) :
    Except String (List (String × ℚ)) :=
  let missing := featureKeys.filter (fun key => (payload.lookup key).isNone)
  if missing.isEmpty then convertFeatures payload featureKeys
  else Except.error (missingMessage missing)

/-! ### Batch aggregation (`classify_batch` in `backend/app.py`)

A raw batch record is either not a JSON object, or an object modelled as an
association list.  A result row is a dict holding the original index and
either an error message or a prediction.  `run_inference` touches external
state (the optional joblib model), so it is passed in as the `infer`
argument; the lightweight engine instantiates it with
`build_lightweight_prediction`. -/

inductive RawRec where
  | notObj
  | obj (payload : List (String × PVal))
  deriving DecidableEq

structure BatchItem (π : Type) where
  index : ℕ
  error : Option String
  pred : Option π
  deriving DecidableEq

def notObjectMessage : String := "Each record must be a JSON object."

/-- The body of the `for index, payload in enumerate(payloads)` loop of
`classify_batch`: not-an-object check, then `prepare_payload`, then
`run_inference`, each `ValueError` becoming an error row. -/
def processRecord {π : Type} (featureKeys : List String)
    (infer : List (String × ℚ) → Except String π) (index : ℕ) (record : RawRec) :
    BatchItem π :=
  match record with
  | RawRec.notObj => ⟨index, some notObjectMessage, none⟩
  | RawRec.obj payload =>
    match prepare_payload featureKeys payload with
    | Except.error e => ⟨index, some e, none⟩
    | Except.ok prepared =>
      match infer prepared with
      | Except.error e => ⟨index, some e, none⟩
      | Except.ok p => ⟨index, none, some p⟩

def classifyFrom {π : Type} (featureKeys : List String)
    (infer : List (String × ℚ) → Except String π) :
    ℕ → List RawRec → List (BatchItem π)
  | _, [] => []
  | index, record :: rest =>
    processRecord featureKeys infer index record ::
      classifyFrom featureKeys infer (index + 1) rest

def classify_batch {π : Type} (featureKeys : List String)
    (infer : List (String × ℚ) → Except String π) (payloads : List RawRec) :
    List (BatchItem π) :=
  classifyFrom featureKeys infer 0 payloads

/-! ### Batch file decoding (`load_batch_from_file` in `backend/app.py`)

Python string tests are embedded over the character lists of the strings so
that they evaluate: `filename.lower().endswith(pat)` becomes `suffixCheck`
over `lowerChars`, and `pat in mimetype.lower()` becomes `infixCheck`.  The
JSON and CSV decode-and-parse paths only matter here through which one is
chosen, so they are passed in as `parseJson` and `parseCsv`. -/

structure FileStorage where
  filename : String
  mimetype : String
  rawBytes : String

def lowerChars (s : String) : List Char := s.data.map Char.toLower

def suffixCheck (pat : List Char) (s : List Char) : Bool := pat.isSuffixOf s

def infixCheck : List Char → List Char → Bool
  | pat, [] => pat.isEmpty
  | pat, c :: rest => pat.isPrefixOf (c :: rest) || infixCheck pat rest

def emptyFileMessage : String := "Uploaded file is empty."

def unsupportedMessage : String := "Unsupported file type. Upload a .json or .csv file."

/-- The inner `is_json()` of `load_batch_from_file`. -/
def jsonHint (fs : FileStorage) : Bool :=
  suffixCheck ".json".data (lowerChars fs.filename) ||
    infixCheck "json".data (lowerChars fs.mimetype)

/-- The inner `is_csv()` of `load_batch_from_file`. -/
def csvHint (fs : FileStorage) : Bool :=
  suffixCheck ".csv".data (lowerChars fs.filename) ||
    infixCheck "csv".data (lowerChars fs.mimetype)

def load_batch_from_file (parseJson parseCsv : String → Except String (List RawRec))
    (fs : FileStorage) : Except String (List RawRec) :=
  if fs.rawBytes = "" then Except.error emptyFileMessage
  else if jsonHint fs then parseJson fs.rawBytes
  else if csvHint fs then parseCsv fs.rawBytes
  else Except.error unsupportedMessage

/-- Modelled from the spec: the BatchDecoder decision read literally as
"by file extension first, content-type second" — the filename extension is
consulted before the content-type ever is.  Used only to compare against
`load_batch_from_file`. -/
def load_batch_extension_first
    (parseJson parseCsv : String → Except String (List RawRec))
    (fs : FileStorage) : Except String (List RawRec) :=
  if fs.rawBytes = "" then Except.error emptyFileMessage
  else if suffixCheck ".json".data (lowerChars fs.filename) then parseJson fs.rawBytes
  else if suffixCheck ".csv".data (lowerChars fs.filename) then parseCsv fs.rawBytes
  else if infixCheck "json".data (lowerChars fs.mimetype) then parseJson fs.rawBytes
  else if infixCheck "csv".data (lowerChars fs.mimetype) then parseCsv fs.rawBytes
  else Except.error unsupportedMessage

/-! ### Inference (`predict_probability` and `build_lightweight_prediction`
in `backend/app.py`)

The module-level parallel arrays `WEIGHTS, FEATURE_KEYS, MEANS, STDS,
MEDIANS` are zipped by the loop of `predict_probability`; the artifact is
embedded directly as the list of those zipped tuples plus the bias. -/

structure FeatureParams where
  weight : ℝ
  key : String
  mean : ℝ
  std : ℝ
  median : ℝ

structure ModelArtifact where
  params : List FeatureParams
  bias : ℝ

/-- Python `features.get(key, median)`. -/
def lookupOr (features : List (String × ℝ)) (key : String) (dflt : ℝ) : ℝ :=
  match features.lookup key with
  | some v => v
  | none => dflt

noncomputable def predict_probability (M : ModelArtifact)
    (features : List (String × ℝ)) : ℝ :=
  sigmoid (M.params.foldl
    (fun total p => total + p.weight * ((lookupOr features p.key p.median - p.mean) / p.std))
    M.bias)

structure Prediction where
  prediction : ℕ
  probability : ℝ
  features : List (String × ℝ)

noncomputable def build_lightweight_prediction (M : ModelArtifact)
    (prepared : List (String × ℝ)) : Prediction :=
  let probability := predict_probability M prepared
  { prediction := if probability ≥ 1/2 then 1 else 0
    probability := probability
    features := prepared }

/-! ### Artifact loading of the standard deviations

`STDS = [float(MODEL_PARAMS["stds"][key]) or 1.0 for key in FEATURE_KEYS]`
in `backend/app.py`: the Python `or 1.0` replaces a zero float by `1.0`. -/

noncomputable def loadStds (rawStds : List ℝ) : List ℝ :=
  rawStds.map (fun s => if s = 0 then 1 else s)

/-! ### Preprocessor standard deviations (`_parse_dataset` in
`api/train_lightweight_model.py`)

`samples` is the imputed feature matrix (`feature_samples` after median
imputation); feature `i` of a row is read positionally, as the Python code
does after `sample[index] = value`. -/

def featureValues (samples : List (List ℝ)) (i : ℕ) : List ℝ :=
  samples.map (fun s => s.getD i 0)

noncomputable def featureMean (samples : List (List ℝ)) (i : ℕ) : ℝ :=
  (featureValues samples i).sum / (samples.length : ℝ)

/-- The accumulated `stds[key] += diff * diff` sum of squared deviations. -/
noncomputable def featureSqDev (samples : List (List ℝ)) (i : ℕ) : ℝ :=
  ((featureValues samples i).map
    (fun v => (v - featureMean samples i) * (v - featureMean samples i))).sum

/-- `math.sqrt(value / max(count - 1, 1)) if value else 1.0`. -/
noncomputable def featureStd (samples : List (List ℝ)) (i : ℕ) : ℝ :=
  if featureSqDev samples i = 0 then 1
  else Real.sqrt (featureSqDev samples i / ((max (samples.length - 1) 1 : ℕ) : ℝ))

/-! ### Trainer (`_train_logistic_regression` in
`api/train_lightweight_model.py`) -/

/-- The `activation += w * x` loop: `zip` truncates to the shorter list. -/
def dotList (ws xs : List ℝ) : ℝ := (List.zipWith (fun w x => w * x) ws xs).sum

/-- The `grad_w[index] += error * value` loop over `enumerate(sample)`:
entries of `grads` beyond the sample length are kept unchanged. -/
def addScaled (error : ℝ) : List ℝ → List ℝ → List ℝ
  | grads, [] => grads
  | [], _ => []
  | g :: grads, x :: xs => (g + error * x) :: addScaled error grads xs

/-- One epoch of gradient accumulation over `zip(features, labels)`,
starting from `grad_w = [0.0] * n_features` and `grad_b = 0.0`. -/
noncomputable def epochGrads (ws : List ℝ) (b : ℝ)
    (features : List (List ℝ)) (labels : List ℝ) (n : ℕ) : List ℝ × ℝ :=
  (features.zip labels).foldl
    (fun g sl =>
      (addScaled (sigmoid (b + dotList ws sl.1) - sl.2) g.1 sl.1,
       g.2 + (sigmoid (b + dotList ws sl.1) - sl.2)))
    (List.replicate n 0, 0)

/-- One epoch of `_train_logistic_regression`: accumulate the full-batch
gradients from the current state, then update with
`rate = learning_rate / count` where `count = len(features)`. -/
noncomputable def epochStep (lr : ℝ) (features : List (List ℝ)) (labels : List ℝ)
    (n : ℕ) (st : List ℝ × ℝ) : List ℝ × ℝ :=
  let g := epochGrads st.1 st.2 features labels n
  let rate := lr / (features.length : ℝ)
  (List.zipWith (fun w gi => w - rate * gi) st.1 g.1, st.2 - rate * g.2)

/-- Modelled from the spec: the same epoch update but with the rate divided
by the schema length `n` ("lr / N" with "length N" the FeatureSchema
length), instead of the record count.  Used only to compare against
`epochStep`. -/
noncomputable def epochStepSchemaRate (lr : ℝ) (features : List (List ℝ))
    (labels : List ℝ) (n : ℕ) (st : List ℝ × ℝ) : List ℝ × ℝ :=
  let g := epochGrads st.1 st.2 features labels n
  let rate := lr / (n : ℝ)
  (List.zipWith (fun w gi => w - rate * gi) st.1 g.1, st.2 - rate * g.2)

/-- Default hyperparameter `learning_rate=0.05`. -/
noncomputable def learning_rate : ℝ := 0.05

/-- Default hyperparameter `epochs=50`. -/
def epochs : ℕ := 50

/-- `_train_logistic_regression` with its default hyperparameters:
`count = len(features)`, `n_features = len(FEATURE_KEYS)`, weights and bias
initialised to zero, and `epochs` iterations of `epochStep`. -/
noncomputable def _train_logistic_regression (features : List (List ℝ))
    (labels : List ℝ) : List ℝ × ℝ :=
  (epochStep learning_rate features labels FEATURE_KEYS.length)^[epochs]
    (List.replicate FEATURE_KEYS.length 0, 0)

/-! ## Helper lemmas -/

theorem sigmoid_zero : sigmoid 0 = 1/2 := by
  simp [sigmoid, Real.exp_zero]
  norm_num

theorem _median_odd (values : List ℚ) (hne : values ≠ [])
    (hodd : values.length % 2 = 1) :
    _median values = (values.insertionSort (fun a b => a ≤ b)).getD (values.length / 2) 0 := by
  have h0 : values.isEmpty = false := by simp [hne]
  have h1 : (values.insertionSort (fun a b => a ≤ b)).length = values.length :=
    List.length_insertionSort _ _
  have h2 : (values.length % 2 = 0) = False := eq_false (by omega)
  simp only [_median, h0, Bool.false_eq_true, if_false, h1, h2]

theorem processRecord_index {π : Type} (featureKeys : List String)
    (infer : List (String × ℚ) → Except String π) (index : ℕ) (record : RawRec) :
    (processRecord featureKeys infer index record).index = index := by
  cases record with
  | notObj => rfl
  | obj payload =>
    rcases hp : prepare_payload featureKeys payload with e | prepared
    · simp [processRecord, hp]
    · rcases hi : infer prepared with e | p <;> simp [processRecord, hp, hi]

theorem processRecord_excl {π : Type} (featureKeys : List String)
    (infer : List (String × ℚ) → Except String π) (index : ℕ) (record : RawRec) :
    ((processRecord featureKeys infer index record).error.isSome
      ↔ (processRecord featureKeys infer index record).pred.isNone) := by
  cases record with
  | notObj => simp [processRecord]
  | obj payload =>
    rcases hp : prepare_payload featureKeys payload with e | prepared
    · simp [processRecord, hp]
    · rcases hi : infer prepared with e | p <;> simp [processRecord, hp, hi]

theorem classifyFrom_length {π : Type} (featureKeys : List String)
    (infer : List (String × ℚ) → Except String π) (payloads : List RawRec) :
    ∀ n : ℕ, (classifyFrom featureKeys infer n payloads).length = payloads.length := by
  induction payloads with
  | nil => intro n; rfl
  | cons record rest ih => intro n; simp [classifyFrom, ih]

theorem classifyFrom_getElem? {π : Type} (featureKeys : List String)
    (infer : List (String × ℚ) → Except String π) (payloads : List RawRec) :
    ∀ n i : ℕ,
      (classifyFrom featureKeys infer n payloads)[i]?
        = (payloads[i]?).map (fun r => processRecord featureKeys infer (n + i) r) := by
  induction payloads with
  | nil => intro n i; simp [classifyFrom]
  | cons record rest ih =>
    intro n i
    cases i with
    | zero => simp [classifyFrom]
    | succ j =>
      have harith : n + 1 + j = n + (j + 1) := by omega
      simp only [classifyFrom, List.getElem?_cons_succ]
      rw [ih (n + 1) j, harith]

theorem classifyFrom_excl {π : Type} (featureKeys : List String)
    (infer : List (String × ℚ) → Except String π) (payloads : List RawRec) :
    ∀ n : ℕ, ∀ item ∈ classifyFrom featureKeys infer n payloads,
      (item.error.isSome ↔ item.pred.isNone) := by
  induction payloads with
  | nil => intro n item hmem; simp [classifyFrom] at hmem
  | cons record rest ih =>
    intro n item hmem
    simp only [classifyFrom] at hmem
    rcases List.mem_cons.1 hmem with h | h
    · subst h; exact processRecord_excl featureKeys infer n record
    · exact ih (n + 1) item h

theorem convertFeatures_all_fin (payload : List (String × PVal)) :
    ∀ keys : List String,
      (∀ key ∈ keys, ∃ q, payload.lookup key = some (PVal.fin q)) →
      ∃ vals, convertFeatures payload keys = Except.ok vals
        ∧ vals.map Prod.fst = keys
        ∧ ∀ kv ∈ vals, payload.lookup kv.1 = some (PVal.fin kv.2) := by
  intro keys
  induction keys with
  | nil => intro _; exact ⟨[], rfl, rfl, by simp⟩
  | cons key keys ih =>
    intro h
    obtain ⟨q, hq⟩ := h key (List.mem_cons_self key keys)
    obtain ⟨vals, hvals, hfst, hvv⟩ := ih (fun k hk => h k (List.mem_cons_of_mem _ hk))
    refine ⟨(key, q) :: vals, ?_, ?_, ?_⟩
    · simp only [convertFeatures, hq, hvals]
    · simp [hfst]
    · intro kv hkv
      rcases List.mem_cons.1 hkv with h1 | h1
      · subst h1; exact hq
      · exact hvv kv h1

theorem convertFeatures_nonnum (payload : List (String × PVal)) :
    ∀ keys : List String,
      (∀ key ∈ keys, (payload.lookup key).isSome) →
      (∀ key ∈ keys, payload.lookup key ≠ some PVal.nonfin) →
      (∃ key ∈ keys, payload.lookup key = some PVal.nonnum) →
      convertFeatures payload keys = Except.error numericMessage := by
  intro keys
  induction keys with
  | nil => intro _ _ hex; simp at hex
  | cons key keys ih =>
    intro hsome hnofin hex
    cases hq : payload.lookup key with
    | none =>
      have := hsome key (List.mem_cons_self key keys)
      rw [hq] at this; simp at this
    | some v =>
      cases v with
      | nonnum => simp [convertFeatures, hq]
      | nonfin => exact absurd hq (hnofin key (List.mem_cons_self key keys))
      | fin q =>
        have hex2 : ∃ k ∈ keys, payload.lookup k = some PVal.nonnum := by
          rcases hex with ⟨k, hk, hkl⟩
          rcases List.mem_cons.1 hk with h1 | h1
          · subst h1; rw [hq] at hkl; simp at hkl
          · exact ⟨k, h1, hkl⟩
        have hrec := ih (fun k hk => hsome k (List.mem_cons_of_mem _ hk))
          (fun k hk => hnofin k (List.mem_cons_of_mem _ hk)) hex2
        simp [convertFeatures, hq, hrec]

theorem convertFeatures_nonfin (payload : List (String × PVal)) :
    ∀ keys : List String,
      (∀ key ∈ keys, (payload.lookup key).isSome) →
      (∀ key ∈ keys, payload.lookup key ≠ some PVal.nonnum) →
      (∃ key ∈ keys, payload.lookup key = some PVal.nonfin) →
      convertFeatures payload keys = Except.error finiteMessage := by
  intro keys
  induction keys with
  | nil => intro _ _ hex; simp at hex
  | cons key keys ih =>
    intro hsome hnonum hex
    cases hq : payload.lookup key with
    | none =>
      have := hsome key (List.mem_cons_self key keys)
      rw [hq] at this; simp at this
    | some v =>
      cases v with
      | nonfin => simp [convertFeatures, hq]
      | nonnum => exact absurd hq (hnonum key (List.mem_cons_self key keys))
      | fin q =>
        have hex2 : ∃ k ∈ keys, payload.lookup k = some PVal.nonfin := by
          rcases hex with ⟨k, hk, hkl⟩
          rcases List.mem_cons.1 hk with h1 | h1
          · subst h1; rw [hq] at hkl; simp at hkl
          · exact ⟨k, h1, hkl⟩
        have hrec := ih (fun k hk => hsome k (List.mem_cons_of_mem _ hk))
          (fun k hk => hnonum k (List.mem_cons_of_mem _ hk)) hex2
        simp [convertFeatures, hq, hrec]

/-! ## Claims -/

/-- Claim C7: the stable sigmoid satisfies `sigmoid (-x) = 1 - sigmoid x`
for every real `x`, and its output always lies strictly between 0 and 1;
the branch selection means the exponential is only ever applied to a
non-positive argument, which is what the bounds reflect in exact
arithmetic. -/
theorem C7_sigmoid_stable (x : ℝ) :
    sigmoid (-x) = 1 - sigmoid x ∧ 0 < sigmoid x ∧ sigmoid x < 1 := by
  have hepos : ∀ y : ℝ, (0:ℝ) < 1 + Real.exp y := fun y => by positivity
  refine ⟨?_, ?_, ?_⟩
  · rcases lt_trichotomy x 0 with h | h | h
    · have h1 : -x ≥ 0 := by linarith
      have h2 : ¬ x ≥ 0 := by linarith
      rw [sigmoid, sigmoid, if_pos h1, if_neg h2, neg_neg]
      have h3 := hepos x
      field_simp
    · subst h
      rw [neg_zero, sigmoid_zero]
      norm_num
    · have h1 : ¬ -x ≥ 0 := by linarith
      have h2 : x ≥ 0 := le_of_lt h
      rw [sigmoid, sigmoid, if_neg h1, if_pos h2]
      have h3 := hepos (-x)
      field_simp
  · rw [sigmoid]
    split
    · positivity
    · positivity
  · rw [sigmoid]
    split
    · rw [div_lt_one (hepos _)]
      have h4 := Real.exp_pos (-x)
      linarith
    · rw [div_lt_one (hepos _)]
      have h4 := Real.exp_pos x
      linarith

/-- Claim C8: `_median` returns 2 on `[1,3,2]`, 5/2 on `[1,2,3,4]`, 0 on the
empty list, and for an odd-length list it returns the middle element of the
ascending sort, hence an element of the list. -/
theorem C8_median_examples :
    _median [1, 3, 2] = 2 ∧ _median [1, 2, 3, 4] = 5/2 ∧ _median [] = 0
    ∧ ∀ values : List ℚ, values ≠ [] → values.length % 2 = 1 →
        _median values ∈ values := by
  refine ⟨by norm_num [_median, List.insertionSort, List.orderedInsert],
          by norm_num [_median, List.insertionSort, List.orderedInsert],
          by norm_num [_median], ?_⟩
  intro values hne hodd
  have hpos : 0 < values.length := List.length_pos.2 hne
  have hmid : values.length / 2 < values.length := Nat.div_lt_self hpos (by norm_num)
  rw [_median_odd values hne hodd]
  have hlen : (values.insertionSort (fun a b => a ≤ b)).length = values.length :=
    List.length_insertionSort _ _
  have hmem : (values.insertionSort (fun a b => a ≤ b)).getD (values.length / 2) 0
      ∈ values.insertionSort (fun a b => a ≤ b) := by
    rw [List.getD_eq_getElem _ _ (by rw [hlen]; exact hmid)]
    exact List.getElem_mem _
  exact ((List.perm_insertionSort _ values).mem_iff).1 hmem

/-- Claim C8, witness: the odd-length membership conjunct at `[5]`. -/
theorem C8_median_examples_witness : _median [(5:ℚ)] ∈ [(5:ℚ)] :=
  C8_median_examples.2.2.2 [5] (by simp) (by simp)

/-- Claim C9: training is deterministic — it is a pure function of the
corpus and labels, so equal inputs give identical weights and bias. -/
theorem C9_training_deterministic (features1 features2 : List (List ℝ))
    (labels1 labels2 : List ℝ) (hf : features1 = features2) (hl : labels1 = labels2) :
    _train_logistic_regression features1 labels1
      = _train_logistic_regression features2 labels2 := by
  rw [hf, hl]

/-- Claim C9, witness: the theorem applied to two copies of a corpus. -/
theorem C9_training_deterministic_witness :
    _train_logistic_regression [[(1:ℝ)]] [0] = _train_logistic_regression [[(1:ℝ)]] [0] :=
  C9_training_deterministic _ _ _ _ rfl rfl

/-- Claim C10: loading the artifact maps every stored std equal to 0 to 1,
so the std array used by inference never contains zero and the
normalization divisions are by nonzero numbers. -/
theorem C10_std_floor_on_load (rawStds : List ℝ) :
    0 ∉ loadStds rawStds ∧ ∀ s ∈ loadStds rawStds, s ≠ 0 := by
  have h : ∀ s ∈ loadStds rawStds, s ≠ 0 := by
    intro s hs
    simp only [loadStds, List.mem_map] at hs
    obtain ⟨x, hx, hxe⟩ := hs
    by_cases h0 : x = 0
    · rw [← hxe, if_pos h0]; norm_num
    · rw [← hxe, if_neg h0]; exact h0
  exact ⟨fun hmem => h 0 hmem rfl, h⟩

/-- Claim C10, witness: a stored std array containing a zero. -/
theorem C10_std_floor_on_load_witness : (0:ℝ) ∉ loadStds [0, 2] :=
  (C10_std_floor_on_load [0, 2]).1

/-- Claim C4 (amended): the decoder rejects zero-length input as an empty
file before any format decision; it then chooses JSON if the lowercased
filename ends in ".json" or the lowercased content-type contains "json",
otherwise CSV if the filename ends in ".csv" or the content-type contains
"csv", otherwise it rejects the file with an unsupported-file-type error —
so the JSON indicators are checked before the CSV indicators, with
extension and content-type combined per format rather than the extension
taking strict priority. -/
theorem C4_decoder (parseJson parseCsv : String → Except String (List RawRec))
    (fs : FileStorage) :
    (fs.rawBytes = "" →
      load_batch_from_file parseJson parseCsv fs = Except.error emptyFileMessage)
    ∧ (fs.rawBytes ≠ "" → jsonHint fs = true →
      load_batch_from_file parseJson parseCsv fs = parseJson fs.rawBytes)
    ∧ (fs.rawBytes ≠ "" → jsonHint fs = false → csvHint fs = true →
      load_batch_from_file parseJson parseCsv fs = parseCsv fs.rawBytes)
    ∧ (fs.rawBytes ≠ "" → jsonHint fs = false → csvHint fs = false →
      load_batch_from_file parseJson parseCsv fs = Except.error unsupportedMessage) := by
  refine ⟨fun h => ?_, fun h hj => ?_, fun h hj hc => ?_, fun h hj hc => ?_⟩
  · simp [load_batch_from_file, h]
  · simp [load_batch_from_file, h, hj]
  · simp [load_batch_from_file, h, hj, hc]
  · simp [load_batch_from_file, h, hj, hc]

/-- Claim C4, witness: a file whose name and content-type indicate neither
format is rejected as unsupported. -/
theorem C4_decoder_witness :
    load_batch_from_file (fun _ => Except.ok []) (fun _ => Except.ok [])
        ⟨"notes.txt", "text/plain", "x"⟩ = Except.error unsupportedMessage :=
  (C4_decoder _ _ _).2.2.2 (by decide) (by decide) (by decide)

/-- Claim C4, counterexample: a file named `data.csv` uploaded with
content-type `application/json` is decoded as JSON by the code, while an
extension-first decision would decode it as CSV. -/
theorem C4_counterexample :
    load_batch_from_file (fun _ => Except.ok []) (fun _ => Except.ok [RawRec.notObj])
        ⟨"data.csv", "application/json", "x"⟩
      ≠ load_batch_extension_first (fun _ => Except.ok []) (fun _ => Except.ok [RawRec.notObj])
        ⟨"data.csv", "application/json", "x"⟩ := by
  intro h
  have h1 : load_batch_from_file (fun _ => Except.ok []) (fun _ => Except.ok [RawRec.notObj])
      ⟨"data.csv", "application/json", "x"⟩ = Except.ok [] := rfl
  have h2 : load_batch_extension_first (fun _ => Except.ok []) (fun _ => Except.ok [RawRec.notObj])
      ⟨"data.csv", "application/json", "x"⟩ = Except.ok [RawRec.notObj] := rfl
  rw [h1, h2] at h
  simp at h

/-- Claim C2: the batch aggregator returns one result per record, in input
order; the result at position `i` is a pure function of the record at
position `i` (so a malformed record never disturbs any other); every item
carries its original index; and every item carries either an error or a
prediction, never both. -/
theorem C2_batch_isolation {π : Type} (featureKeys : List String)
    (infer : List (String × ℚ) → Except String π) (payloads : List RawRec) :
    (classify_batch featureKeys infer payloads).length = payloads.length
    ∧ (∀ i : ℕ, (classify_batch featureKeys infer payloads)[i]?
        = (payloads[i]?).map (fun r => processRecord featureKeys infer i r))
    ∧ (∀ i : ℕ, ∀ item : BatchItem π,
        (classify_batch featureKeys infer payloads)[i]? = some item → item.index = i)
    ∧ (∀ item ∈ classify_batch featureKeys infer payloads,
        (item.error.isSome ↔ item.pred.isNone)) := by
  refine ⟨classifyFrom_length featureKeys infer payloads 0, ?_, ?_, ?_⟩
  · intro i
    have h := classifyFrom_getElem? featureKeys infer payloads 0 i
    simpa [classify_batch] using h
  · intro i item hmem
    rw [classify_batch, classifyFrom_getElem? featureKeys infer payloads 0 i] at hmem
    cases hp : payloads[i]? with
    | none => rw [hp] at hmem; simp at hmem
    | some r =>
      rw [hp] at hmem
      simp only [Option.map_some'] at hmem
      have hitem : item = processRecord featureKeys infer (0 + i) r :=
        (Option.some_inj.1 hmem).symm
      rw [hitem, processRecord_index]
      omega
  · exact classifyFrom_excl featureKeys infer payloads 0

/-- Claim C2, witness: in a 3-record batch whose middle record is missing
the required key, the item at index 1 still carries index 1 (the theorem is
applied at that concrete batch). -/
theorem C2_batch_isolation_witness :
    (⟨1, some (missingMessage ["a"]), none⟩ : BatchItem ℕ).index = 1 :=
  (C2_batch_isolation ["a"] (fun _ => Except.ok 0)
      [RawRec.obj [("a", PVal.fin 1)], RawRec.obj [], RawRec.obj [("a", PVal.fin 2)]]).2.2.1
    1 ⟨1, some (missingMessage ["a"]), none⟩ rfl

/-- Claim C3: the validator fails with one error naming all missing schema
keys when any are absent; when all keys are present and every value
converts to a finite number it succeeds with a feature map whose keys are
exactly the schema keys in schema order (extra payload keys dropped); when
all keys are present and some value fails numeric conversion (and none is
a non-finite conversion) it fails with the generic numeric error; and when
all keys are present and some value converts to a non-finite number (and
none fails conversion) it fails with the distinct finiteness error. -/
theorem C3_validator (featureKeys : List String) (payload : List (String × PVal)) :
    (featureKeys.filter (fun key => (payload.lookup key).isNone) ≠ [] →
      prepare_payload featureKeys payload
        = Except.error (missingMessage
            (featureKeys.filter (fun key => (payload.lookup key).isNone))))
    ∧ ((∀ key ∈ featureKeys, ∃ q, payload.lookup key = some (PVal.fin q)) →
      ∃ vals, prepare_payload featureKeys payload = Except.ok vals
        ∧ vals.map Prod.fst = featureKeys
        ∧ ∀ kv ∈ vals, payload.lookup kv.1 = some (PVal.fin kv.2))
    ∧ ((∀ key ∈ featureKeys, (payload.lookup key).isSome) →
      (∀ key ∈ featureKeys, payload.lookup key ≠ some PVal.nonfin) →
      (∃ key ∈ featureKeys, payload.lookup key = some PVal.nonnum) →
      prepare_payload featureKeys payload = Except.error numericMessage)
    ∧ ((∀ key ∈ featureKeys, (payload.lookup key).isSome) →
      (∀ key ∈ featureKeys, payload.lookup key ≠ some PVal.nonnum) →
      (∃ key ∈ featureKeys, payload.lookup key = some PVal.nonfin) →
      prepare_payload featureKeys payload = Except.error finiteMessage) := by
  have hforall : (∀ key ∈ featureKeys, (payload.lookup key).isSome) →
      featureKeys.filter (fun key => (payload.lookup key).isNone) = [] := by
    intro h
    rw [List.filter_eq_nil_iff]
    intro k hk
    have hs := h k hk
    simp only [Option.isNone_iff_eq_none]
    intro he
    rw [he] at hs
    simp at hs
  refine ⟨fun h => ?_, fun h => ?_, fun h1 h2 h3 => ?_, fun h1 h2 h3 => ?_⟩
  · simp only [prepare_payload]
    rw [if_neg (by simp [List.isEmpty_iff, h])]
  · have hmiss : featureKeys.filter (fun key => (payload.lookup key).isNone) = [] :=
      hforall (fun k hk => by obtain ⟨q, hq⟩ := h k hk; simp [hq])
    obtain ⟨vals, hv, hf, hvv⟩ := convertFeatures_all_fin payload featureKeys h
    refine ⟨vals, ?_, hf, hvv⟩
    simp only [prepare_payload, hmiss, List.isEmpty_nil, if_true]
    exact hv
  · have hmiss := hforall h1
    simp only [prepare_payload, hmiss, List.isEmpty_nil, if_true]
    exact convertFeatures_nonnum payload featureKeys h1 h2 h3
  · have hmiss := hforall h1
    simp only [prepare_payload, hmiss, List.isEmpty_nil, if_true]
    exact convertFeatures_nonfin payload featureKeys h1 h2 h3

/-- Claim C3, witness: a payload providing only `c` out of the required
keys `a, b, c` fails with one error naming both `a` and `b`. -/
theorem C3_validator_witness :
    prepare_payload ["a", "b", "c"] [("c", PVal.fin 1)]
      = Except.error (missingMessage ["a", "b"]) := by
  have hfil : (["a", "b", "c"].filter
      (fun key => (([("c", PVal.fin 1)] : List (String × PVal)).lookup key).isNone))
      = ["a", "b"] := by decide
  have h := (C3_validator ["a", "b", "c"] [("c", PVal.fin 1)]).1 (by rw [hfil]; simp)
  rw [hfil] at h
  exact h

theorem foldl_add_map {α : Type} (f : α → ℝ) (l : List α) :
    ∀ init : ℝ, l.foldl (fun t a => t + f a) init = init + (l.map f).sum := by
  induction l with
  | nil => intro init; simp
  | cons a l ih =>
    intro init
    simp only [List.foldl_cons, List.map_cons, List.sum_cons, ih]
    ring

/-- Claim C6: the engine takes each schema feature from the input when
present and falls back to the stored training median otherwise, normalizes
by `(value - mean) / std`, feeds `bias + Σ weight * normalized` to the
sigmoid, and labels 1 exactly when the probability is at least 1/2. -/
theorem C6_inference (M : ModelArtifact) (features : List (String × ℝ)) :
    predict_probability M features
      = sigmoid (M.bias
          + (M.params.map (fun p =>
              p.weight * ((lookupOr features p.key p.median - p.mean) / p.std))).sum)
    ∧ (build_lightweight_prediction M features).probability
        = predict_probability M features
    ∧ (build_lightweight_prediction M features).features = features
    ∧ ((build_lightweight_prediction M features).prediction = 1
        ↔ 1/2 ≤ predict_probability M features)
    ∧ ((build_lightweight_prediction M features).prediction = 0
        ↔ predict_probability M features < 1/2) := by
  refine ⟨?_, rfl, rfl, ?_, ?_⟩
  · rw [predict_probability, foldl_add_map]
  · by_cases h : predict_probability M features ≥ 1/2
    · simp [build_lightweight_prediction, h, ge_iff_le]
    · simp [build_lightweight_prediction, h, ge_iff_le]
  · by_cases h : predict_probability M features ≥ 1/2
    · simp [build_lightweight_prediction, h, ge_iff_le]
    · simp [build_lightweight_prediction, h, ge_iff_le]

/-- Claim C5: the preprocessor std of a feature that is constant over a
nonempty corpus is stored as 1 (the zero-variance floor); every stored std
is nonzero, so the later normalization never divides by zero; and a
nonzero squared-deviation sum is turned into the sample standard deviation
with denominator `max(count - 1, 1)`. -/
theorem C5_preprocessor_std (samples : List (List ℝ)) (i : ℕ) (v : ℝ)
    (hne : samples ≠ []) (hconst : ∀ s ∈ samples, s.getD i 0 = v) :
    featureStd samples i = 1
    ∧ (∀ t : List (List ℝ), ∀ j : ℕ, featureStd t j ≠ 0)
    ∧ (∀ t : List (List ℝ), ∀ j : ℕ, featureSqDev t j ≠ 0 →
        featureStd t j
          = Real.sqrt (featureSqDev t j / ((max (t.length - 1) 1 : ℕ) : ℝ))) := by
  have hsq_nonneg : ∀ (t : List (List ℝ)) (j : ℕ), 0 ≤ featureSqDev t j := by
    intro t j
    apply List.sum_nonneg
    intro x hx
    simp only [List.mem_map] at hx
    obtain ⟨y, hy, rfl⟩ := hx
    exact mul_self_nonneg _
  refine ⟨?_, ?_, ?_⟩
  · have hvals : featureValues samples i = List.replicate samples.length v := by
      rw [featureValues, List.map_congr_left hconst]
      exact List.map_const' samples v
    have hlen0 : (samples.length : ℝ) ≠ 0 :=
      Nat.cast_ne_zero.2 (fun h0 => hne (List.length_eq_zero.1 h0))
    have hmean : featureMean samples i = v := by
      rw [featureMean, hvals, List.sum_replicate, nsmul_eq_mul,
        mul_comm, mul_div_assoc, div_self hlen0, mul_one]
    have hsq : featureSqDev samples i = 0 := by
      rw [featureSqDev, hvals, hmean]
      simp
    rw [featureStd, if_pos hsq]
  · intro t j
    by_cases h : featureSqDev t j = 0
    · simp [featureStd, h]
    · rw [featureStd, if_neg h]
      have hpos : 0 < featureSqDev t j := lt_of_le_of_ne (hsq_nonneg t j) (Ne.symm h)
      have hden : (0:ℝ) < ((max (t.length - 1) 1 : ℕ) : ℝ) := by
        have h1 : (1:ℕ) ≤ max (t.length - 1) 1 := le_max_right _ _
        exact_mod_cast lt_of_lt_of_le Nat.zero_lt_one h1
      exact ne_of_gt (Real.sqrt_pos.2 (div_pos hpos hden))
  · intro t j h
    rw [featureStd, if_neg h]

/-- Claim C5, witness: a feature equal to 2 in every one of three records
has stored std 1. -/
theorem C5_preprocessor_std_witness : featureStd [[(2:ℝ)], [2], [2]] 0 = 1 :=
  (C5_preprocessor_std [[(2:ℝ)], [2], [2]] 0 2 (by simp)
    (by intro s hs; simp at hs; subst hs; rfl)).1

theorem addScaled_length (error : ℝ) :
    ∀ grads xs : List ℝ, xs.length = grads.length →
      (addScaled error grads xs).length = grads.length := by
  intro grads
  induction grads with
  | nil =>
    intro xs h
    cases xs with
    | nil => rfl
    | cons x xs => simp at h
  | cons g grads ih =>
    intro xs h
    cases xs with
    | nil => rfl
    | cons x xs => simp [addScaled, ih xs (by simpa using h)]

theorem addScaled_getD (error : ℝ) :
    ∀ (grads xs : List ℝ) (i : ℕ), xs.length = grads.length → i < grads.length →
      (addScaled error grads xs).getD i 0
        = grads.getD i 0 + error * xs.getD i 0 := by
  intro grads
  induction grads with
  | nil => intro xs i h hi; simp at hi
  | cons g grads ih =>
    intro xs i h hi
    cases xs with
    | nil => simp at h
    | cons x xs =>
      cases i with
      | zero => rfl
      | succ j =>
        simp only [addScaled, List.getD_cons_succ]
        exact ih xs j (by simpa using h) (by simpa using hi)

theorem getD_replicate_zero : ∀ n i : ℕ, (List.replicate n (0:ℝ)).getD i 0 = 0 := by
  intro n
  induction n with
  | zero => intro i; simp
  | succ m ih =>
    intro i
    cases i with
    | zero => rfl
    | succ j =>
      simp only [List.replicate, List.getD_cons_succ]
      exact ih j

theorem foldGrads_snd (ws : List ℝ) (b : ℝ) (l : List (List ℝ × ℝ)) :
    ∀ (acc : List ℝ) (c : ℝ),
      ((l.foldl (fun g sl =>
          (addScaled (sigmoid (b + dotList ws sl.1) - sl.2) g.1 sl.1,
           g.2 + (sigmoid (b + dotList ws sl.1) - sl.2))) (acc, c)).2
        = c + (l.map (fun sl => sigmoid (b + dotList ws sl.1) - sl.2)).sum) := by
  induction l with
  | nil => intro acc c; simp
  | cons sl l ih =>
    intro acc c
    simp only [List.foldl_cons, List.map_cons, List.sum_cons]
    rw [ih]
    ring

theorem foldGrads_fst_length (ws : List ℝ) (b : ℝ) (l : List (List ℝ × ℝ)) :
    ∀ (acc : List ℝ) (c : ℝ), (∀ sl ∈ l, sl.1.length = acc.length) →
      ((l.foldl (fun g sl =>
          (addScaled (sigmoid (b + dotList ws sl.1) - sl.2) g.1 sl.1,
           g.2 + (sigmoid (b + dotList ws sl.1) - sl.2))) (acc, c)).1.length
        = acc.length) := by
  induction l with
  | nil => intro acc c _; rfl
  | cons sl l ih =>
    intro acc c h
    have hlen : sl.1.length = acc.length := h sl (List.mem_cons_self sl l)
    have hkeep : (addScaled (sigmoid (b + dotList ws sl.1) - sl.2) acc sl.1).length
        = acc.length := addScaled_length _ acc sl.1 hlen
    simp only [List.foldl_cons]
    rw [ih (addScaled _ acc sl.1) (c + _)
      (fun sl2 h2 => by rw [hkeep]; exact h sl2 (List.mem_cons_of_mem _ h2)), hkeep]

theorem foldGrads_fst (ws : List ℝ) (b : ℝ) (l : List (List ℝ × ℝ)) :
    ∀ (acc : List ℝ) (c : ℝ) (i : ℕ),
      (∀ sl ∈ l, sl.1.length = acc.length) → i < acc.length →
      ((l.foldl (fun g sl =>
          (addScaled (sigmoid (b + dotList ws sl.1) - sl.2) g.1 sl.1,
           g.2 + (sigmoid (b + dotList ws sl.1) - sl.2))) (acc, c)).1.getD i 0
        = acc.getD i 0
          + (l.map (fun sl => (sigmoid (b + dotList ws sl.1) - sl.2) * sl.1.getD i 0)).sum) := by
  induction l with
  | nil => intro acc c i _ _; simp
  | cons sl l ih =>
    intro acc c i h hi
    have hlen : sl.1.length = acc.length := h sl (List.mem_cons_self sl l)
    have hkeep : (addScaled (sigmoid (b + dotList ws sl.1) - sl.2) acc sl.1).length
        = acc.length := addScaled_length _ acc sl.1 hlen
    simp only [List.foldl_cons, List.map_cons, List.sum_cons]
    rw [ih (addScaled _ acc sl.1) (c + _) i
      (fun sl2 h2 => by rw [hkeep]; exact h sl2 (List.mem_cons_of_mem _ h2))
      (by rw [hkeep]; exact hi)]
    rw [addScaled_getD _ acc sl.1 i hlen hi]
    ring

/-- Claim C1 (amended): per epoch the trainer accumulates the full-batch
gradients at the current weights and bias (a snapshot: the updates below
use only these pre-update values), then updates every weight by
`weight[i] -= (lr / count) * gradient[i]` and the bias by
`bias -= (lr / count) * gradient_bias`, where the divisor `count` is the
number of training records, not the schema length; the learning rate is
0.05 and `_train_logistic_regression` iterates exactly 50 such epochs from
zero weights and bias. -/
theorem C1_trainer (features : List (List ℝ)) (labels : List ℝ) (st : List ℝ × ℝ)
    (hsamples : ∀ s ∈ features, s.length = FEATURE_KEYS.length)
    (hw : st.1.length = FEATURE_KEYS.length)
    (i : ℕ) (hi : i < FEATURE_KEYS.length) :
    _train_logistic_regression features labels
      = (epochStep learning_rate features labels FEATURE_KEYS.length)^[50]
          (List.replicate FEATURE_KEYS.length 0, 0)
    ∧ learning_rate = 1/20
    ∧ (epochStep learning_rate features labels FEATURE_KEYS.length st).1.getD i 0
        = st.1.getD i 0
          - (learning_rate / (features.length : ℝ)) *
            ((features.zip labels).map
              (fun sl => (sigmoid (st.2 + dotList st.1 sl.1) - sl.2) * sl.1.getD i 0)).sum
    ∧ (epochStep learning_rate features labels FEATURE_KEYS.length st).2
        = st.2
          - (learning_rate / (features.length : ℝ)) *
            ((features.zip labels).map
              (fun sl => sigmoid (st.2 + dotList st.1 sl.1) - sl.2)).sum := by
  have hzip : ∀ sl ∈ features.zip labels, sl.1.length = FEATURE_KEYS.length := by
    intro sl hsl
    rcases sl with ⟨s, lab⟩
    exact hsamples s (List.of_mem_zip hsl).1
  have hzip2 : ∀ sl ∈ features.zip labels,
      sl.1.length = (List.replicate FEATURE_KEYS.length (0:ℝ)).length := by
    intro sl hsl
    rw [List.length_replicate]
    exact hzip sl hsl
  have hglen : (epochGrads st.1 st.2 features labels FEATURE_KEYS.length).1.length
      = FEATURE_KEYS.length := by
    rw [epochGrads, foldGrads_fst_length st.1 st.2 (features.zip labels) _ _ hzip2,
      List.length_replicate]
  refine ⟨rfl, by norm_num [learning_rate], ?_, ?_⟩
  · have hbound : i < (List.zipWith
        (fun w gi => w - learning_rate / (features.length : ℝ) * gi) st.1
        (epochGrads st.1 st.2 features labels FEATURE_KEYS.length).1).length := by
      rw [List.length_zipWith, hw, hglen]
      simpa using hi
    simp only [epochStep]
    rw [List.getD_eq_getElem _ _ hbound, List.getElem_zipWith,
      ← List.getD_eq_getElem st.1 0 (by rw [hw]; exact hi),
      ← List.getD_eq_getElem (epochGrads st.1 st.2 features labels FEATURE_KEYS.length).1 0
        (by rw [hglen]; exact hi)]
    rw [epochGrads, foldGrads_fst st.1 st.2 (features.zip labels) _ _ i hzip2
      (by rw [List.length_replicate]; exact hi)]
    rw [getD_replicate_zero, zero_add, mul_comm (learning_rate / (features.length : ℝ))]
  · simp only [epochStep]
    rw [epochGrads, foldGrads_snd st.1 st.2 (features.zip labels), zero_add]

/-- Claim C1, witness: the amended per-epoch bias update at a concrete
one-record corpus. -/
theorem C1_trainer_witness :
    (epochStep learning_rate [List.replicate 33 (1:ℝ)] [(0:ℝ)] FEATURE_KEYS.length
        (List.replicate 33 (0:ℝ), 0)).2
      = (List.replicate 33 (0:ℝ), (0:ℝ)).2
        - (learning_rate / (([List.replicate 33 (1:ℝ)] : List (List ℝ)).length : ℝ)) *
          (([List.replicate 33 (1:ℝ)].zip [(0:ℝ)]).map
            (fun sl => sigmoid ((List.replicate 33 (0:ℝ), (0:ℝ)).2
              + dotList (List.replicate 33 (0:ℝ), (0:ℝ)).1 sl.1) - sl.2)).sum :=
  (C1_trainer [List.replicate 33 (1:ℝ)] [(0:ℝ)] (List.replicate 33 (0:ℝ), 0)
    (by intro s hs; simp at hs; subst hs; rfl) rfl 0 (by decide)).2.2.2

/-- Claim C1, counterexample: on a one-record corpus over the 33-key
schema, the epoch update of the code (rate `lr / count` with `count` the
record count) differs from the update prescribed by the claim (rate
`lr / N` with `N` the schema length): after one epoch the biases already
disagree. -/
theorem C1_counterexample :
    (epochStep learning_rate [List.replicate 33 (1:ℝ)] [0] 33
        (List.replicate 33 0, 0)).2
      ≠ (epochStepSchemaRate learning_rate [List.replicate 33 (1:ℝ)] [0] 33
        (List.replicate 33 0, 0)).2 := by
  have hdot : dotList (List.replicate 33 (0:ℝ)) (List.replicate 33 (1:ℝ)) = 0 := by
    simp [dotList, List.zipWith_replicate]
  have hgr : (epochGrads (List.replicate 33 (0:ℝ)) 0 [List.replicate 33 (1:ℝ)] [0] 33).2
      = 1/2 := by
    rw [epochGrads, foldGrads_snd]
    simp only [List.zip_cons_cons, List.zip_nil_right, List.map_cons, List.map_nil,
      List.sum_cons, List.sum_nil, zero_add, add_zero, sub_zero]
    rw [hdot, sigmoid_zero]
  simp only [epochStep, epochStepSchemaRate]
  rw [hgr]
  norm_num [learning_rate]

end Exoplanets
